import Mathlib

/-!
Verification of the multi-source digest pipeline (digest.py): canonical
records, the two source adapters, the fail-open date filter, the
insertion-ordered last-write-wins deduplicator, the prompt builder and the
mail-sink configuration lookup, each shallowly embedded from the source.
-/

namespace Digest

/-- The canonical record shape both adapters produce (the Python dicts built
in pubmed_search and clinicaltrials_search). -/
structure CanonicalRecord where
  source : String
  id : String
  title : String
  meta : String
  url : String
  snippet : String
deriving DecidableEq, Repr

/-! ## Deduplicator (main, lines 195-198)

The source builds a Python dict keyed by record id: for each item in order,
the assignment overwrites the value of an existing key in place (the key
keeps its original position) or appends a fresh key at the end, and the
result is the dict's values in insertion order. -/

/-- Insertion-ordered dictionary assignment, modelling one step of the
CPython dict update in main: an existing key keeps its position and
receives the new value; a new key is appended at the end. -/
def dictInsert : List (String × CanonicalRecord) → String → CanonicalRecord →
    List (String × CanonicalRecord)
  | [], k, v => [(k, v)]
  | p :: m, k, v => if p.1 = k then (k, v) :: m else p :: dictInsert m k v

/-- Lookup in the insertion-ordered dictionary. -/
def lookupKV : List (String × CanonicalRecord) → String → Option CanonicalRecord
  | [], _ => none
  | p :: m, k => if p.1 = k then some p.2 else lookupKV m k

/-- One iteration of the dedup loop in main: assign the item to the dict
under its id. -/
def dedupeStep (m : List (String × CanonicalRecord)) (it : CanonicalRecord) :
    List (String × CanonicalRecord) :=
  dictInsert m it.id it

/-- The deduplication loop of main: fold the items into the dict keyed by
record id, then take the dict's values (in insertion order, as CPython
dicts preserve it). -/
def dedupe (items : List CanonicalRecord) : List CanonicalRecord :=
  (items.foldl dedupeStep []).map Prod.snd

/-- Adding a key to an ordered key set: no-op when present, append when new
(the shape of the key list after one dict assignment). -/
def insKey (ks : List String) (k : String) : List String :=
  if k ∈ ks then ks else ks ++ [k]

/-- Keys of the dictionary, in order. -/
def keys (m : List (String × CanonicalRecord)) : List String :=
  m.map Prod.fst

/-- First occurrence of each element of the list, in order of first
occurrence, skipping elements already seen (the accumulator). -/
def keepFirstAux : List String → List String → List String
  | [], _ => []
  | k :: l, seen =>
    if k ∈ seen then keepFirstAux l seen else k :: keepFirstAux l (seen ++ [k])

/-- First occurrence of each element of the list, in order of first
occurrence. -/
def keepFirst (l : List String) : List String :=
  keepFirstAux l []

/-- Records stored in the dict are stored under their own id as key. -/
def goodMap (m : List (String × CanonicalRecord)) : Prop :=
  ∀ p ∈ m, p.2.id = p.1

/-! ## Python string helpers

Models of the CPython string methods the source uses, over the ASCII
whitespace set (the titles handled here are plain text). -/

/-- Characters removed by the Python str.strip default whitespace set. -/
def isPySpace (c : Char) : Bool :=
  c = ' ' || c = '\t' || c = '\n' || c = '\r' || c = '\x0b' || c = '\x0c'

/-- Python str.strip with no argument: drop leading and trailing whitespace. -/
def pystrip (s : String) : String :=
  String.mk (((s.toList.dropWhile isPySpace).reverse.dropWhile isPySpace).reverse)

/-- Python s.rstrip with argument a period: drop every trailing period. -/
def pyrstripDot (s : String) : String :=
  String.mk ((s.toList.reverse.dropWhile (fun c => c = '.')).reverse)

/-- Drop at most one trailing period (used only to compare the
implementation with the spec sentence about a single trailing period). -/
def dropOneTrailingDot : List Char → List Char
  | l =>
    match l.reverse with
    | '.' :: rest => rest.reverse
    | _ => l

/-- Modelled from the spec: the title normalization as the spec words it,
surrounding whitespace stripped and a single trailing period removed. -/
def specTitleNormalize (s : String) : String :=
  String.mk (dropOneTrailingDot (pystrip s).toList)

/-! ## Date parsing (clinicaltrials_search, lines 104-110)

A model of datetime.fromisoformat restricted to the calendar-date strings
the registry serves: YYYY-MM-DD, optionally followed by a T separator and
HH, HH:MM or HH:MM:SS.  Fractional seconds and UTC offsets are treated as
parse failures.  The parsed value is naive; the source immediately stamps
it with the UTC timezone, so instants below are UTC seconds. -/

/-- Decimal digit value of a character, by its code point. -/
def digit? (c : Char) : Option Nat :=
  if 48 ≤ c.toNat && c.toNat ≤ 57 then some (c.toNat - 48) else none

/-- Two-digit decimal number. -/
def twoDigits (a b : Char) : Option Nat := do
  let x ← digit? a
  let y ← digit? b
  pure (10 * x + y)

/-- Four-digit decimal number. -/
def fourDigits (a b c d : Char) : Option Nat := do
  let x ← digit? a
  let y ← digit? b
  let z ← digit? c
  let w ← digit? d
  pure (1000 * x + 100 * y + 10 * z + w)

/-- Gregorian leap-year test. -/
def isLeap (y : Nat) : Bool :=
  (y % 4 = 0 && y % 100 ≠ 0) || y % 400 = 0

/-- Days in a month of the proleptic Gregorian calendar. -/
def daysInMonth (y m : Nat) : Nat :=
  if m = 2 then (if isLeap y then 29 else 28)
  else if m = 4 || m = 6 || m = 9 || m = 11 then 30
  else 31

/-- Days in the year before the first day of the given month. -/
def daysBeforeMonth (y m : Nat) : Nat :=
  (List.range (m - 1)).foldl (fun acc i => acc + daysInMonth y (i + 1)) 0

/-- A parsed naive datetime (what datetime.fromisoformat returns). -/
structure PyDateTime where
  year : Nat
  month : Nat
  day : Nat
  hour : Nat
  minute : Nat
  second : Nat
deriving DecidableEq, Repr

/-- Build a datetime after the range validation datetime performs. -/
def mkPyDateTime (y m d hh mm ss : Nat) : Option PyDateTime :=
  if 1 ≤ y && y ≤ 9999 && 1 ≤ m && m ≤ 12 && 1 ≤ d && d ≤ daysInMonth y m
      && hh < 24 && mm < 60 && ss < 60 then
    some ⟨y, m, d, hh, mm, ss⟩
  else
    none

/-- Parse the time part: HH, HH:MM or HH:MM:SS. -/
def parseTimeChars : List Char → Option (Nat × Nat × Nat)
  | [h1, h2] => do
    let h ← twoDigits h1 h2
    pure (h, 0, 0)
  | [h1, h2, ':', m1, m2] => do
    let h ← twoDigits h1 h2
    let m ← twoDigits m1 m2
    pure (h, m, 0)
  | [h1, h2, ':', m1, m2, ':', s1, s2] => do
    let h ← twoDigits h1 h2
    let m ← twoDigits m1 m2
    let s ← twoDigits s1 s2
    pure (h, m, s)
  | _ => none

/-- Parse an ISO date with optional time, as character list. -/
def parseISOChars : List Char → Option PyDateTime
  | y1 :: y2 :: y3 :: y4 :: '-' :: m1 :: m2 :: '-' :: d1 :: d2 :: rest => do
    let y ← fourDigits y1 y2 y3 y4
    let m ← twoDigits m1 m2
    let d ← twoDigits d1 d2
    match rest with
    | [] => mkPyDateTime y m d 0 0 0
    | 'T' :: timeChars => do
      let t ← parseTimeChars timeChars
      mkPyDateTime y m d t.1 t.2.1 t.2.2
    | _ => none
  | _ => none

/-- Model of datetime.fromisoformat on the date shapes described above. -/
def fromisoformat (s : String) : Option PyDateTime :=
  parseISOChars s.toList

/-- Proleptic Gregorian ordinal of a calendar date (day 1 is 0001-01-01),
as date.toordinal computes it. -/
def toOrdinal (y m d : Nat) : Int :=
  365 * ((y : Int) - 1) + ((y : Int) - 1) / 4 - ((y : Int) - 1) / 100
    + ((y : Int) - 1) / 400 + (daysBeforeMonth y m : Int) + (d : Int)

/-- UTC instant (in seconds) of a parsed datetime stamped with UTC, the
quantity the source compares against the cutoff. -/
def toInstant (dt : PyDateTime) : Int :=
  toOrdinal dt.year dt.month dt.day * 86400
    + (dt.hour : Int) * 3600 + (dt.minute : Int) * 60 + (dt.second : Int)

/-- The date filter of clinicaltrials_search (lines 104-110): keep is true
by default; a non-empty last-update string is parsed, a successful parse
compares against the cutoff inclusively, and a parse failure leaves keep
true (the except branch). -/
def is_recent (last_update : String) (cutoff : Int) : Bool :=
  if last_update = "" then
    true
  else
    match fromisoformat last_update with
    | none => true
    | some dt => decide (cutoff ≤ toInstant dt)

/-! ## Literature adapter (pubmed_search, lines 13-67) -/

/-- The fields pubmed_search reads from one ESummary record (absent fields
default to the empty string via dict.get). -/
structure PubmedSummary where
  title : String
  fulljournalname : String
  pubdate : String
deriving DecidableEq, Repr

/-- The canonical record pubmed_search builds for one PMID (lines 51-66):
the title is stripped of surrounding whitespace, then of trailing periods,
and a blank result falls back to the synthetic placeholder. -/
def pubmedItem (pid : String) (summary : PubmedSummary) : CanonicalRecord :=
  let title := pyrstripDot (pystrip summary.title)
  { source := "PubMed"
    id := "PMID:" ++ pid
    title := if title = "" then "PubMed record " ++ pid else title
    meta := summary.fulljournalname ++ " | " ++ summary.pubdate
    url := "https://pubmed.ncbi.nlm.nih.gov/" ++ pid ++ "/"
    snippet := "" }

/-- The two outbound calls pubmed_search can make, in order. -/
inductive PubmedCall where
  | esearch
  | esummary
deriving DecidableEq, Repr

/-- The upstream responses one pubmed_search run observes: the ESearch HTTP
status and idlist, and the ESummary HTTP status and per-PMID records. -/
structure PubmedWorld where
  esearchStatus : Nat
  idlist : List String
  esummaryStatus : Nat
  summaries : List (String × PubmedSummary)
deriving DecidableEq, Repr

/-- pubmed_search as a function of the observed responses, returning the
calls it issues and its outcome: raise_for_status aborts on a non-2xx
ESearch response; an empty idlist returns the empty list with no ESummary
call; otherwise the ESummary response is checked and mapped per PMID in
idlist order, absent records defaulting to empty fields. -/
def pubmed_search (w : PubmedWorld) :
    List PubmedCall × Except Nat (List CanonicalRecord) :=
  if 400 ≤ w.esearchStatus then
    ([PubmedCall.esearch], Except.error w.esearchStatus)
  else if w.idlist = [] then
    ([PubmedCall.esearch], Except.ok [])
  else if 400 ≤ w.esummaryStatus then
    ([PubmedCall.esearch, PubmedCall.esummary], Except.error w.esummaryStatus)
  else
    ([PubmedCall.esearch, PubmedCall.esummary],
      Except.ok (w.idlist.map
        (fun pid => pubmedItem pid ((w.summaries.lookup pid).getD ⟨"", "", ""⟩))))

/-! ## Trial-registry adapter (clinicaltrials_search, lines 70-124) -/

/-- The statusModule fields the adapter reads. -/
structure CTStatusModule where
  lastUpdatePostDate : Option String
  overallStatus : Option String
deriving DecidableEq, Repr

/-- The identificationModule fields the adapter reads. -/
structure CTIdentificationModule where
  nctId : Option String
  briefTitle : Option String
deriving DecidableEq, Repr

/-- The protocolSection fields the adapter reads; either module may be
absent. -/
structure CTProtocolSection where
  identificationModule : Option CTIdentificationModule
  statusModule : Option CTStatusModule
deriving DecidableEq, Repr

/-- One study of the response; the protocolSection may be absent. -/
structure CTStudy where
  protocolSection : Option CTProtocolSection
deriving DecidableEq, Repr

/-- The query parameters of one /api/v2/studies request as the source
builds them. -/
structure CTParams where
  queryTerm : String
  pageSize : String
  sort : Option String
deriving DecidableEq, Repr

/-- One HTTP response of the registry: status code and parsed studies
list. -/
structure CTResponse where
  status : Nat
  studies : List CTStudy
deriving DecidableEq, Repr

/-- The record clinicaltrials_search builds for one study (lines 92-122),
or none when the date filter drops it.  Missing nested objects default to
empty modules, fields default through the or-chains of the source, and the
id falls back to the unstable title hash when the NCT id is blank; the
hash function of the runtime is a parameter. -/
def ctItem (pyhash : String → Int) (cutoff : Int) (s : CTStudy) :
    Option CanonicalRecord :=
  let prot := s.protocolSection.getD ⟨none, none⟩
  let ident := prot.identificationModule.getD ⟨none, none⟩
  let status := prot.statusModule.getD ⟨none, none⟩
  let nct := ident.nctId.getD ""
  let title := if (ident.briefTitle.getD "") = "" then "Clinical trial update"
    else ident.briefTitle.getD ""
  let lastUpdate := status.lastUpdatePostDate.getD ""
  let overall := status.overallStatus.getD ""
  let url := if nct = "" then "https://clinicaltrials.gov/"
    else "https://clinicaltrials.gov/study/" ++ nct
  if is_recent lastUpdate cutoff then
    some { source := "ClinicalTrials.gov"
           id := if nct = "" then "CT:" ++ toString (pyhash title)
             else "NCT:" ++ nct
           title := title
           meta := overall ++ " | last update: " ++ lastUpdate
           url := url
           snippet := "" }
  else
    none

/-- clinicaltrials_search as a function of the response oracle, returning
the requests it issues and its outcome: it builds the single primary
request with the sort parameter, raises on a non-2xx status
(raise_for_status), and otherwise filters and maps the studies against the
cutoff now minus days_back. -/
def clinicaltrials_search (oracle : CTParams → CTResponse)
    (pyhash : String → Int) (query : String) (days_back page_size : Nat)
    (now : Int) : List CTParams × Except Nat (List CanonicalRecord) :=
  let params : CTParams :=
    { queryTerm := query
      pageSize := toString page_size
      sort := some "@lastUpdatePostDate:desc" }
  let r := oracle params
  if 400 ≤ r.status then
    ([params], Except.error r.status)
  else
    let cutoff := now - (days_back : Int) * 86400
    ([params], Except.ok (r.studies.filterMap (ctItem pyhash cutoff)))

/-! ## Prompt builder (build_prompt, lines 127-150) -/

/-- The bullet built for one record inside the loop of build_prompt. -/
def itemLine (it : CanonicalRecord) : String :=
  "- [" ++ it.source ++ "] " ++ it.title ++ "\n" ++
    "  Meta: " ++ it.meta ++ "\n" ++
    "  Link: " ++ it.url ++ "\n"

/-- The lines list of build_prompt, built by appending one bullet per item
in iteration order. -/
def buildPromptLines (items : List CanonicalRecord) : List String :=
  items.foldl (fun lines it => lines ++ [itemLine it]) []

/-- The fixed instruction text of the prompt template before the item
list. -/
def promptInstructions : String :=
  "你是一名血液肿瘤方向的研究助理。请基于我给你的条目列表，写一份中文周报（不是医疗建议）。\n" ++
    "要求：\n" ++
    "1) 只能使用条目中提供的信息；不要编造疗效数字、样本量、结论强度。若信息不足，请明确写“条目未提供，需阅读全文确认”。\n" ++
    "2) 每条结论都必须附上对应链接。\n" ++
    "3) 输出固定结构：\n" ++
    "   - TL;DR（三条以内）\n" ++
    "   - 研究进展（按主题：CAR-T / 双抗 / 其他新药 / MRD与诊断 / 真实世界与安全性；没有就略过）\n" ++
    "   - 临床试验更新（列出 NCT 号、状态、更新时间）\n" ++
    "   - 下周关注点（2-5条关键词）\n" ++
    "4) 风格：简洁、可追溯、像研究组内部周报。\n" ++
    "\n" ++
    "条目列表：\n"

/-- build_prompt: the instruction template with the newline-joined bullet
list interpolated, stripped of surrounding whitespace. -/
def build_prompt (items : List CanonicalRecord) : String :=
  pystrip ("\n" ++ promptInstructions
    ++ String.intercalate "\n" (buildPromptLines items) ++ "\n")

/-! ## Mail-sink configuration (send_email, lines 166-172) -/

/-- The exceptions the configuration code can raise: the generic mapping
KeyError of os.environ, the ValueError of int, and the descriptive
missing-configuration error the spec asks for (never raised by the
source). -/
inductive PyExc where
  | keyError (key : String)
  | valueError (msg : String)
  | missingConfig (msg : String)
deriving DecidableEq, Repr

/-- Whether an exception is the descriptive missing-configuration error. -/
def PyExc.isMissingConfig : PyExc → Bool
  | PyExc.missingConfig _ => true
  | _ => false

/-- The process environment as a key-value list. -/
abbrev EnvMap := List (String × String)

/-- Subscript access on os.environ: the value when the key is present, a
generic KeyError naming the key otherwise. -/
def envIndex (env : EnvMap) (k : String) : Except PyExc String :=
  match env.lookup k with
  | some v => Except.ok v
  | none => Except.error (PyExc.keyError k)

/-- Digits of a decimal literal to a number; none when empty or
non-numeric. -/
def digitsToNat : List Char → Option Nat
  | [] => none
  | cs => cs.foldl (fun acc c => do
      let a ← acc
      let d ← digit? c
      pure (10 * a + d)) (some 0)

/-- Numeric value of a decimal literal with optional sign; none when the
string is not such a literal. -/
def pyintParse (s : String) : Option Int :=
  match s.toList with
  | '-' :: cs => (digitsToNat cs).map (fun n => -(n : Int))
  | '+' :: cs => (digitsToNat cs).map (fun n => (n : Int))
  | cs => (digitsToNat cs).map (fun n => (n : Int))

/-- Model of Python int on a string: optional sign then decimal digits
(the whitespace and underscore forms accepted by Python are not
modelled); anything else raises ValueError. -/
def pyint (s : String) : Except PyExc Int :=
  match pyintParse s with
  | some n => Except.ok n
  | none => Except.error (PyExc.valueError s)

/-- The mail-transport configuration send_email reads. -/
structure SMTPConfig where
  host : String
  port : Int
  user : String
  password : String
  sender : String
  toAddr : String
deriving DecidableEq, Repr

/-- The required environment keys, in the order send_email reads them. -/
def smtpKeys : List String :=
  ["SMTP_HOST", "SMTP_PORT", "SMTP_USER", "SMTP_PASS", "SMTP_FROM",
    "REPORT_EMAIL_TO"]

/-- The configuration phase of send_email (lines 166-172): six subscript
reads of os.environ, the port passed through int. -/
def send_email_config (env : EnvMap) : Except PyExc SMTPConfig := do
  let host ← envIndex env "SMTP_HOST"
  let portStr ← envIndex env "SMTP_PORT"
  let port ← pyint portStr
  let user ← envIndex env "SMTP_USER"
  let password ← envIndex env "SMTP_PASS"
  let sender ← envIndex env "SMTP_FROM"
  let toAddr ← envIndex env "REPORT_EMAIL_TO"
  pure { host := host, port := port, user := user, password := password,
         sender := sender, toAddr := toAddr }

theorem lookupKV_dictInsert_self (m : List (String × CanonicalRecord))
    (k : String) (v : CanonicalRecord) :
    lookupKV (dictInsert m k v) k = some v := by
  induction m with
  | nil => simp [dictInsert, lookupKV]
  | cons p m ih =>
    by_cases h : p.1 = k
    · simp [dictInsert, lookupKV, h]
    · simp [dictInsert, lookupKV, h, ih]

theorem keys_cons (p : String × CanonicalRecord)
    (m : List (String × CanonicalRecord)) :
    keys (p :: m) = p.1 :: keys m := rfl

theorem lookupKV_dictInsert_ne (m : List (String × CanonicalRecord))
    (k k' : String) (v : CanonicalRecord) (h : k' ≠ k) :
    lookupKV (dictInsert m k v) k' = lookupKV m k' := by
  induction m with
  | nil => simp [dictInsert, lookupKV, Ne.symm h]
  | cons p m ih =>
    by_cases hp : p.1 = k
    · subst hp
      simp [dictInsert, lookupKV, Ne.symm h]
    · simp [dictInsert, hp, lookupKV, ih]

theorem keys_dictInsert (m : List (String × CanonicalRecord))
    (k : String) (v : CanonicalRecord) :
    keys (dictInsert m k v) =
      if k ∈ keys m then keys m else keys m ++ [k] := by
  induction m with
  | nil => simp [dictInsert, keys]
  | cons p m ih =>
    by_cases h : p.1 = k
    · simp [dictInsert, keys_cons, h]
    · have hk : ¬ k = p.1 := fun hc => h hc.symm
      simp only [dictInsert, if_neg h, keys_cons, ih, List.mem_cons, hk, false_or]
      by_cases hm : k ∈ keys m
      · simp [hm]
      · simp [hm]

theorem dictInsert_of_not_mem (m : List (String × CanonicalRecord))
    (k : String) (v : CanonicalRecord) (h : k ∉ keys m) :
    dictInsert m k v = m ++ [(k, v)] := by
  induction m with
  | nil => simp [dictInsert]
  | cons p m ih =>
    have hp : ¬ p.1 = k := by
      intro hc
      exact h (by simp [keys_cons, hc])
    have hm : k ∉ keys m := by
      intro hc
      exact h (by simp [keys_cons, hc])
    simp [dictInsert, hp, ih hm]

theorem nodup_keys_dictInsert (m : List (String × CanonicalRecord))
    (k : String) (v : CanonicalRecord) (h : (keys m).Nodup) :
    (keys (dictInsert m k v)).Nodup := by
  rw [keys_dictInsert]
  by_cases hm : k ∈ keys m
  · simpa [hm] using h
  · simp only [hm, if_false, List.nodup_append]
    refine ⟨h, List.nodup_singleton k, ?_⟩
    intro a ha hb
    rw [List.mem_singleton] at hb
    exact hm (hb ▸ ha)

theorem goodMap_dictInsert (m : List (String × CanonicalRecord))
    (k : String) (v : CanonicalRecord) (hv : v.id = k) :
    goodMap m → goodMap (dictInsert m k v) := by
  induction m with
  | nil =>
    intro _ p hp
    simp [dictInsert] at hp
    subst hp
    exact hv
  | cons q m ih =>
    intro h p hp
    by_cases hq : q.1 = k
    · simp only [dictInsert, if_pos hq, List.mem_cons] at hp
      rcases hp with rfl | hp
      · exact hv
      · exact h p (by simp [hp])
    · simp only [dictInsert, if_neg hq, List.mem_cons] at hp
      rcases hp with rfl | hp
      · exact h p (by simp)
      · exact ih (fun r hr => h r (by simp [hr])) p hp

theorem keys_dictInsert_insKey (m : List (String × CanonicalRecord))
    (k : String) (v : CanonicalRecord) :
    keys (dictInsert m k v) = insKey (keys m) k :=
  keys_dictInsert m k v

theorem find?_append_rec (l₁ l₂ : List CanonicalRecord) (p : CanonicalRecord → Bool) :
    (l₁ ++ l₂).find? p = ((l₁.find? p).elim (l₂.find? p) some) := by
  induction l₁ with
  | nil => simp
  | cons a l ih =>
    cases h : p a with
    | true => simp [List.find?, h]
    | false => simp [List.find?, h, ih]

theorem lookupKV_foldl (R : List CanonicalRecord) :
    ∀ (m : List (String × CanonicalRecord)) (k : String),
    lookupKV (R.foldl dedupeStep m) k =
      ((R.reverse.find? (fun x => x.id == k)).elim (lookupKV m k) some) := by
  induction R with
  | nil => intro m k; simp
  | cons r R ih =>
    intro m k
    simp only [List.foldl_cons, List.reverse_cons]
    rw [ih, find?_append_rec]
    cases hf : R.reverse.find? (fun x => x.id == k) with
    | some x => simp
    | none =>
      by_cases hk : r.id = k
      · subst hk
        simp [dedupeStep, List.find?, lookupKV_dictInsert_self]
      · have hbeq : (r.id == k) = false := by
          simp [hk]
        simp [dedupeStep, List.find?, hbeq,
          lookupKV_dictInsert_ne m r.id k r (Ne.symm hk)]

theorem keys_foldl (R : List CanonicalRecord) :
    ∀ (m : List (String × CanonicalRecord)),
    keys (R.foldl dedupeStep m) = (R.map CanonicalRecord.id).foldl insKey (keys m) := by
  induction R with
  | nil => intro m; simp
  | cons r R ih =>
    intro m
    simp only [List.foldl_cons, List.map_cons]
    rw [ih, dedupeStep, keys_dictInsert_insKey]

theorem foldl_insKey_eq_keepFirstAux (l : List String) :
    ∀ (seen : List String), l.foldl insKey seen = seen ++ keepFirstAux l seen := by
  induction l with
  | nil => intro seen; simp [keepFirstAux]
  | cons k l ih =>
    intro seen
    by_cases hk : k ∈ seen
    · simp [insKey, keepFirstAux, hk, ih]
    · simp only [List.foldl_cons, insKey, if_neg hk, keepFirstAux, ih]
      simp [hk]

theorem nodup_keys_foldl (R : List CanonicalRecord) :
    ∀ (m : List (String × CanonicalRecord)), (keys m).Nodup →
    (keys (R.foldl dedupeStep m)).Nodup := by
  induction R with
  | nil => intro m h; simpa using h
  | cons r R ih =>
    intro m h
    exact ih _ (nodup_keys_dictInsert m r.id r h)

theorem goodMap_foldl (R : List CanonicalRecord) :
    ∀ (m : List (String × CanonicalRecord)), goodMap m →
    goodMap (R.foldl dedupeStep m) := by
  induction R with
  | nil => intro m h; simpa using h
  | cons r R ih =>
    intro m h
    exact ih _ (goodMap_dictInsert m r.id r rfl h)

theorem filter_values_of_not_mem (m : List (String × CanonicalRecord)) (k : String) :
    goodMap m → k ∉ keys m →
    (m.map Prod.snd).filter (fun x => x.id == k) = [] := by
  induction m with
  | nil => intro _ _; simp
  | cons p m ih =>
    intro hg hk
    have hp : ¬ p.2.id = k := by
      rw [hg p (by simp)]
      intro hc
      exact hk (by simp [keys_cons, hc])
    have hm : k ∉ keys m := fun hc => hk (by simp [keys_cons, hc])
    simp only [List.map_cons, List.filter_cons]
    have : (p.2.id == k) = false := by simp [hp]
    rw [this]
    simp only [Bool.false_eq_true, if_false]
    exact ih (fun r hr => hg r (by simp [hr])) hm

theorem filter_values_eq_lookup (m : List (String × CanonicalRecord)) (k : String) :
    goodMap m → (keys m).Nodup →
    (m.map Prod.snd).filter (fun x => x.id == k) =
      ((lookupKV m k).elim [] (fun v => [v])) := by
  induction m with
  | nil => intro _ _; simp [lookupKV]
  | cons p m ih =>
    intro hg hn
    have hpid : p.2.id = p.1 := hg p (by simp)
    have hn' : (keys m).Nodup := by
      rw [keys_cons] at hn
      exact hn.of_cons
    have hg' : goodMap m := fun r hr => hg r (by simp [hr])
    by_cases hk : p.1 = k
    · have hne : k ∉ keys m := by
        rw [keys_cons] at hn
        rw [← hk]
        exact (List.nodup_cons.mp hn).1
      have hbeq : (p.2.id == k) = true := by simp [hpid, hk]
      simp only [List.map_cons, List.filter_cons, hbeq, if_pos rfl, lookupKV, hk]
      simp [filter_values_of_not_mem m k hg' hne]
    · have hbeq : (p.2.id == k) = false := by simp [hpid, hk]
      simp only [List.map_cons, List.filter_cons, hbeq, lookupKV, hk]
      simp only [Bool.false_eq_true, if_false]
      exact ih hg' hn'

theorem map_id_values_eq_keys (m : List (String × CanonicalRecord)) :
    goodMap m → (m.map Prod.snd).map CanonicalRecord.id = keys m := by
  induction m with
  | nil => intro _; simp [keys]
  | cons p m ih =>
    intro hg
    simp only [List.map_cons, keys_cons]
    rw [hg p (by simp), ih (fun r hr => hg r (by simp [hr]))]

theorem foldl_of_fresh (R : List CanonicalRecord) :
    ∀ (m : List (String × CanonicalRecord)),
    (R.map CanonicalRecord.id).Nodup → (∀ r ∈ R, r.id ∉ keys m) →
    R.foldl dedupeStep m = m ++ R.map (fun r => (r.id, r)) := by
  induction R with
  | nil => intro m _ _; simp
  | cons r R ih =>
    intro m hnd hfresh
    have hr : r.id ∉ keys m := hfresh r (by simp)
    have hnd' : (R.map CanonicalRecord.id).Nodup := by
      simp only [List.map_cons, List.nodup_cons] at hnd
      exact hnd.2
    have hhd : r.id ∉ R.map CanonicalRecord.id := by
      simp only [List.map_cons, List.nodup_cons] at hnd
      exact hnd.1
    have hfresh' : ∀ x ∈ R, x.id ∉ keys (dictInsert m r.id r) := by
      intro x hx
      rw [keys_dictInsert, if_neg hr]
      intro hc
      rcases List.mem_append.mp hc with hc | hc
      · exact hfresh x (by simp [hx]) hc
      · rw [List.mem_singleton] at hc
        exact hhd (hc ▸ List.mem_map_of_mem CanonicalRecord.id hx)
    simp only [List.foldl_cons, List.map_cons]
    rw [dedupeStep, ih _ hnd' hfresh', dictInsert_of_not_mem m r.id r hr]
    simp

theorem append_ne_empty_left (s t : String) (h : s ≠ "") : s ++ t ≠ "" := by
  intro he
  apply h
  have hd : s.data ++ t.data = [] := congrArg String.data he
  rcases List.append_eq_nil.mp hd with ⟨h1, _⟩
  cases s with
  | mk data => exact congrArg String.mk h1

theorem keepFirstAux_length_le (l : List String) :
    ∀ seen, (keepFirstAux l seen).length ≤ l.length := by
  induction l with
  | nil => intro seen; simp [keepFirstAux]
  | cons k l ih =>
    intro seen
    by_cases hk : k ∈ seen
    · simp only [keepFirstAux, if_pos hk]
      exact le_trans (ih seen) (by simp)
    · simp only [keepFirstAux, if_neg hk, List.length_cons]
      exact Nat.succ_le_succ (ih _)

theorem keepFirstAux_of_fresh (l : List String) :
    ∀ seen, l.Nodup → (∀ x ∈ l, x ∉ seen) → keepFirstAux l seen = l := by
  induction l with
  | nil => intro seen _ _; rfl
  | cons k l ih =>
    intro seen hnd hf
    have hk : k ∉ seen := hf k (by simp)
    simp only [keepFirstAux, if_neg hk]
    congr 1
    apply ih
    · exact hnd.of_cons
    · intro x hx hc
      rcases List.mem_append.mp hc with hc | hc
      · exact hf x (by simp [hx]) hc
      · rw [List.mem_singleton] at hc
        exact (List.nodup_cons.mp hnd).1 (hc ▸ hx)

theorem keepFirstAux_length_eq (l : List String) :
    ∀ seen, (keepFirstAux l seen).length = l.length →
      l.Nodup ∧ ∀ x ∈ l, x ∉ seen := by
  induction l with
  | nil => intro seen _; simp
  | cons k l ih =>
    intro seen h
    by_cases hk : k ∈ seen
    · exfalso
      simp only [keepFirstAux, if_pos hk, List.length_cons] at h
      have := keepFirstAux_length_le l seen
      omega
    · simp only [keepFirstAux, if_neg hk, List.length_cons] at h
      have h' : (keepFirstAux l (seen ++ [k])).length = l.length := by omega
      obtain ⟨hnd, hf⟩ := ih _ h'
      refine ⟨List.nodup_cons.mpr ⟨fun hkl => hf k hkl (by simp), hnd⟩, ?_⟩
      intro x hx
      rcases List.mem_cons.mp hx with rfl | hx
      · exact hk
      · intro hc
        exact hf x hx (by simp [hc])

theorem exists_find?_of_mem_id (l : List CanonicalRecord) (k : String) :
    (∃ r ∈ l, r.id = k) →
      ∃ r, l.find? (fun x => x.id == k) = some r := by
  induction l with
  | nil =>
    rintro ⟨r, hr, _⟩
    simp at hr
  | cons a l ih =>
    rintro ⟨r, hr, hk⟩
    by_cases ha : a.id = k
    · exact ⟨a, by simp [List.find?, ha]⟩
    · have hbeq : (a.id == k) = false := by simp [ha]
      rcases List.mem_cons.mp hr with rfl | hr
      · exact absurd hk ha
      · obtain ⟨x, hx⟩ := ih ⟨r, hr, hk⟩
        exact ⟨x, by simp [List.find?, hbeq, hx]⟩

theorem goodMap_dedupe_fold (R : List CanonicalRecord) :
    goodMap (R.foldl dedupeStep []) :=
  goodMap_foldl R [] (fun p hp => absurd hp (List.not_mem_nil p))

theorem nodup_keys_dedupe_fold (R : List CanonicalRecord) :
    (keys (R.foldl dedupeStep [])).Nodup :=
  nodup_keys_foldl R [] (by simp [keys])

theorem dedupe_map_id (R : List CanonicalRecord) :
    (dedupe R).map CanonicalRecord.id = keepFirst (R.map CanonicalRecord.id) := by
  rw [dedupe, map_id_values_eq_keys _ (goodMap_dedupe_fold R), keys_foldl]
  have h := foldl_insKey_eq_keepFirstAux (R.map CanonicalRecord.id) []
  simpa [keys, keepFirst] using h

theorem dedupe_length_eq_keepFirst (R : List CanonicalRecord) :
    (dedupe R).length = (keepFirst (R.map CanonicalRecord.id)).length := by
  have h := congrArg List.length (dedupe_map_id R)
  simpa using h

theorem dedupe_nodup_id (R : List CanonicalRecord) :
    ((dedupe R).map CanonicalRecord.id).Nodup := by
  rw [dedupe, map_id_values_eq_keys _ (goodMap_dedupe_fold R)]
  exact nodup_keys_dedupe_fold R

theorem dedupe_of_nodup (R : List CanonicalRecord)
    (h : (R.map CanonicalRecord.id).Nodup) : dedupe R = R := by
  rw [dedupe, foldl_of_fresh R [] h (fun r _ hc => by simp [keys] at hc)]
  simp only [List.nil_append, List.map_map]
  exact List.map_id R

theorem dedupe_filter_eq_last (R : List CanonicalRecord) (k : String)
    (hk : k ∈ R.map CanonicalRecord.id) :
    ∃ r, R.reverse.find? (fun x => x.id == k) = some r ∧
      (dedupe R).filter (fun x => x.id == k) = [r] := by
  obtain ⟨r0, hr0, hid⟩ := List.mem_map.mp hk
  obtain ⟨r, hr⟩ := exists_find?_of_mem_id R.reverse k
    ⟨r0, List.mem_reverse.mpr hr0, hid⟩
  refine ⟨r, hr, ?_⟩
  rw [dedupe, filter_values_eq_lookup _ k (goodMap_dedupe_fold R)
    (nodup_keys_dedupe_fold R), lookupKV_foldl, hr]
  rfl

theorem buildPromptLines_eq_map (items : List CanonicalRecord) :
    buildPromptLines items = items.map itemLine := by
  suffices h : ∀ acc, items.foldl (fun lines it => lines ++ [itemLine it]) acc
      = acc ++ items.map itemLine by
    simpa [buildPromptLines] using h []
  induction items with
  | nil => intro acc; simp
  | cons it items ih =>
    intro acc
    simp [ih]

theorem pyint_error_shape (s : String) (e : PyExc)
    (h : pyint s = Except.error e) : e = PyExc.valueError s := by
  rw [pyint] at h
  cases hp : pyintParse s with
  | some n => rw [hp] at h; cases h
  | none =>
    rw [hp] at h
    cases h
    rfl

theorem exceptBind_ok {α β : Type} (a : α) (f : α → Except PyExc β) :
    Except.ok a >>= f = f a := rfl

theorem exceptBind_error {α β : Type} (e : PyExc) (f : α → Except PyExc β) :
    (Except.error e : Except PyExc α) >>= f = Except.error e := rfl

theorem exceptMap_ok {α β : Type} (g : α → β) (a : α) :
    g <$> (Except.ok a : Except PyExc α) = Except.ok (g a) := rfl

theorem exceptMap_error {α β : Type} (g : α → β) (e : PyExc) :
    g <$> (Except.error e : Except PyExc α) = Except.error e := rfl

theorem pubmedItem_nonempty (pid : String) (s : PubmedSummary) :
    (pubmedItem pid s).title ≠ "" ∧ (pubmedItem pid s).url ≠ "" := by
  constructor
  · by_cases ht : pyrstripDot (pystrip s.title) = ""
    · simp only [pubmedItem, ht, if_pos rfl]
      exact append_ne_empty_left "PubMed record " pid (by decide)
    · simpa only [pubmedItem, if_neg ht] using ht
  · simp only [pubmedItem]
    exact append_ne_empty_left ("https://pubmed.ncbi.nlm.nih.gov/" ++ pid) "/"
      (append_ne_empty_left "https://pubmed.ncbi.nlm.nih.gov/" pid (by decide))

theorem pubmed_search_ok_shape (w : PubmedWorld) (items : List CanonicalRecord)
    (h : (pubmed_search w).2 = Except.ok items) :
    items = [] ∨ items = w.idlist.map
      (fun pid => pubmedItem pid ((w.summaries.lookup pid).getD ⟨"", "", ""⟩)) := by
  rw [pubmed_search] at h
  by_cases h1 : 400 ≤ w.esearchStatus
  · rw [if_pos h1] at h
    have h' : (Except.error w.esearchStatus :
        Except Nat (List CanonicalRecord)) = Except.ok items := h
    cases h'
  · rw [if_neg h1] at h
    by_cases h2 : w.idlist = []
    · rw [if_pos h2] at h
      have h' : Except.ok ([] : List CanonicalRecord) = Except.ok items := h
      exact Or.inl (Except.ok.inj h').symm
    · rw [if_neg h2] at h
      by_cases h3 : 400 ≤ w.esummaryStatus
      · rw [if_pos h3] at h
        have h' : (Except.error w.esummaryStatus :
            Except Nat (List CanonicalRecord)) = Except.ok items := h
        cases h'
      · rw [if_neg h3] at h
        have h' : Except.ok (w.idlist.map
            (fun pid => pubmedItem pid
              ((w.summaries.lookup pid).getD ⟨"", "", ""⟩)))
            = Except.ok items := h
        exact Or.inr (Except.ok.inj h').symm

theorem clinicaltrials_search_ok_shape (oracle : CTParams → CTResponse)
    (pyhash : String → Int) (query : String) (db ps : Nat) (now : Int)
    (items : List CanonicalRecord)
    (h : (clinicaltrials_search oracle pyhash query db ps now).2 =
      Except.ok items) :
    items = (oracle ⟨query, toString ps,
        some "@lastUpdatePostDate:desc"⟩).studies.filterMap
      (ctItem pyhash (now - (db : Int) * 86400)) := by
  simp only [clinicaltrials_search] at h
  by_cases h1 : 400 ≤ (oracle ⟨query, toString ps,
      some "@lastUpdatePostDate:desc"⟩).status
  · rw [if_pos h1] at h
    have h' : (Except.error (oracle ⟨query, toString ps,
        some "@lastUpdatePostDate:desc"⟩).status :
        Except Nat (List CanonicalRecord)) = Except.ok items := h
    cases h'
  · rw [if_neg h1] at h
    have h' : Except.ok ((oracle ⟨query, toString ps,
        some "@lastUpdatePostDate:desc"⟩).studies.filterMap
          (ctItem pyhash (now - (db : Int) * 86400)))
        = Except.ok items := h
    exact (Except.ok.inj h').symm

theorem ctItem_nonempty (pyhash : String → Int) (cutoff : Int) (st : CTStudy)
    (r : CanonicalRecord) (h : ctItem pyhash cutoff st = some r) :
    r.title ≠ "" ∧ r.url ≠ "" := by
  simp only [ctItem] at h
  split at h
  · cases h
    constructor
    · by_cases hb :
        (((st.protocolSection.getD ⟨none, none⟩).identificationModule.getD
          ⟨none, none⟩).briefTitle.getD "") = ""
      · simp only [hb, if_pos rfl]
        decide
      · simpa only [if_neg hb] using hb
    · by_cases hn :
        (((st.protocolSection.getD ⟨none, none⟩).identificationModule.getD
          ⟨none, none⟩).nctId.getD "") = ""
      · simp only [hn, if_pos rfl]
        decide
      · simp only [if_neg hn]
        exact append_ne_empty_left _ _ (by decide)
  · cases h

/-! ## Claims -/

/-- C1 counterexample: against an oracle answering HTTP 400, the trial
registry adapter issues exactly one request, the primary one with the raw
query term and the sort parameter, and propagates the error; no fallback
request with a date-range query term is issued, and no parsed results are
returned. -/
theorem clinicaltrials_no_fallback_counterexample :
    clinicaltrials_search (fun _ => ⟨400, []⟩) (fun _ => 0)
        "multiple myeloma" 7 20 0 =
      ([⟨"multiple myeloma", "20", some "@lastUpdatePostDate:desc"⟩],
        Except.error 400) := rfl

/-- C1 amended: the trial-registry adapter issues exactly one request, the
primary one; on an HTTP 400-class primary response it issues no fallback
request and propagates the error status. -/
theorem clinicaltrials_search_single_request (oracle : CTParams → CTResponse)
    (pyhash : String → Int) (query : String) (db ps : Nat) (now : Int) :
    (clinicaltrials_search oracle pyhash query db ps now).1 =
      [⟨query, toString ps, some "@lastUpdatePostDate:desc"⟩] ∧
    (400 ≤ (oracle ⟨query, toString ps, some "@lastUpdatePostDate:desc"⟩).status →
      clinicaltrials_search oracle pyhash query db ps now =
        ([⟨query, toString ps, some "@lastUpdatePostDate:desc"⟩],
          Except.error
            (oracle ⟨query, toString ps,
              some "@lastUpdatePostDate:desc"⟩).status)) := by
  constructor
  · simp only [clinicaltrials_search]
    split
    · rfl
    · rfl
  · intro h
    simp only [clinicaltrials_search, if_pos h]

theorem clinicaltrials_search_single_request_witness :
    400 ≤ ((fun _ => (⟨404, []⟩ : CTResponse))
      (⟨"q", "20", some "@lastUpdatePostDate:desc"⟩ : CTParams)).status ∧
    clinicaltrials_search (fun _ => ⟨404, []⟩) (fun _ => 0) "q" 7 20 0 =
      ([⟨"q", "20", some "@lastUpdatePostDate:desc"⟩], Except.error 404) :=
  ⟨by decide,
    (clinicaltrials_search_single_request (fun _ => ⟨404, []⟩) (fun _ => 0)
      "q" 7 20 0).2 (by decide)⟩

/-- C2: for each id occurring in the input, dedupe retains exactly the
last-occurring record with that id (last-write-wins); its length never
exceeds the input's, with equality exactly when all ids are distinct. -/
theorem dedupe_last_write_wins_and_length (R : List CanonicalRecord) :
    (∀ k ∈ R.map CanonicalRecord.id,
      ∃ r, R.reverse.find? (fun x => x.id == k) = some r ∧
        (dedupe R).filter (fun x => x.id == k) = [r]) ∧
    (dedupe R).length ≤ R.length ∧
    ((dedupe R).length = R.length ↔ (R.map CanonicalRecord.id).Nodup) := by
  refine ⟨fun k hk => dedupe_filter_eq_last R k hk, ?_, ?_, ?_⟩
  · rw [dedupe_length_eq_keepFirst]
    calc (keepFirst (R.map CanonicalRecord.id)).length
        ≤ (R.map CanonicalRecord.id).length := keepFirstAux_length_le _ []
      _ = R.length := by simp
  · intro h
    rw [dedupe_length_eq_keepFirst] at h
    have h' : (keepFirstAux (R.map CanonicalRecord.id) []).length
        = (R.map CanonicalRecord.id).length := by
      simpa [keepFirst] using h
    exact (keepFirstAux_length_eq _ [] h').1
  · intro h
    rw [dedupe_of_nodup R h]

theorem dedupe_last_write_wins_and_length_witness :
    ("PMID:1" ∈ ([⟨"PubMed", "PMID:1", "old", "m", "u", ""⟩,
        ⟨"PubMed", "PMID:1", "new", "m2", "u2", ""⟩] :
        List CanonicalRecord).map CanonicalRecord.id) ∧
    ∃ r, ([⟨"PubMed", "PMID:1", "old", "m", "u", ""⟩,
        ⟨"PubMed", "PMID:1", "new", "m2", "u2", ""⟩] :
        List CanonicalRecord).reverse.find? (fun x => x.id == "PMID:1")
          = some r ∧
      (dedupe [⟨"PubMed", "PMID:1", "old", "m", "u", ""⟩,
        ⟨"PubMed", "PMID:1", "new", "m2", "u2", ""⟩]).filter
          (fun x => x.id == "PMID:1") = [r] :=
  ⟨by decide,
    (dedupe_last_write_wins_and_length
      [⟨"PubMed", "PMID:1", "old", "m", "u", ""⟩,
        ⟨"PubMed", "PMID:1", "new", "m2", "u2", ""⟩]).1 "PMID:1" (by decide)⟩

/-- C3: the date filter keeps a record whose last-update string is absent
(empty) or unparseable, for every cutoff, and such a study is never
dropped by the trial-registry adapter's filtering step. -/
theorem is_recent_fail_open (s : String) (cutoff : Int)
    (h : s = "" ∨ fromisoformat s = none) :
    is_recent s cutoff = true ∧
    ∀ (pyhash : String → Int) (st : CTStudy),
      ((st.protocolSection.getD ⟨none, none⟩).statusModule.getD
          ⟨none, none⟩).lastUpdatePostDate.getD "" = s →
      ctItem pyhash cutoff st ≠ none := by
  have hk : is_recent s cutoff = true := by
    rcases h with rfl | hparse
    · rfl
    · rw [is_recent]
      by_cases hs : s = ""
      · simp [hs]
      · simp [hs, hparse]
  refine ⟨hk, ?_⟩
  intro pyhash st hst
  simp only [ctItem]
  rw [hst, hk]
  simp

theorem is_recent_fail_open_witness :
    ("not-a-date" = "" ∨ fromisoformat "not-a-date" = none) ∧
      is_recent "not-a-date" 0 = true :=
  ⟨Or.inr (by decide), (is_recent_fail_open "not-a-date" 0 (Or.inr (by decide))).1⟩

/-- C4: for a date string the filter can parse, the record is kept exactly
when the parsed instant, stamped UTC, is at least the cutoff instant
(inclusive comparison). -/
theorem is_recent_parseable (s : String) (cutoff : Int) (dt : PyDateTime)
    (h : fromisoformat s = some dt) :
    is_recent s cutoff = true ↔ toInstant dt ≥ cutoff := by
  have hs : s ≠ "" := by
    intro he
    subst he
    rw [show fromisoformat "" = none from rfl] at h
    cases h
  rw [is_recent, if_neg hs, h]
  simp [ge_iff_le]

theorem is_recent_parseable_witness :
    fromisoformat "2024-03-05" = some ⟨2024, 3, 5, 0, 0, 0⟩ ∧
    (is_recent "2024-03-05" 0 = true ↔
      toInstant ⟨2024, 3, 5, 0, 0, 0⟩ ≥ 0) :=
  ⟨by decide, is_recent_parseable "2024-03-05" 0 ⟨2024, 3, 5, 0, 0, 0⟩ (by decide)⟩

/-- C5 counterexample: for the upstream title with two trailing periods
the built title has every trailing period removed, not a single one as the
claim states. -/
theorem pubmed_title_single_period_counterexample :
    (pubmedItem "1" ⟨"A..", "", ""⟩).title = "A" ∧
    specTitleNormalize "A.." = "A." ∧ ("A" : String) ≠ "A." :=
  ⟨by decide, by decide, by decide⟩

/-- C5 amended: the built title is the upstream title stripped of
surrounding whitespace and then of all trailing periods; when that result
is blank, and in particular when the upstream title is blank, the title is
the non-empty synthetic placeholder naming the native id. -/
theorem pubmed_title_normalization (pid : String) (summary : PubmedSummary) :
    (pubmedItem pid summary).title =
      (if pyrstripDot (pystrip summary.title) = "" then "PubMed record " ++ pid
        else pyrstripDot (pystrip summary.title)) ∧
    (summary.title = "" →
      (pubmedItem pid summary).title = "PubMed record " ++ pid) := by
  constructor
  · rfl
  · intro h
    have hz : pyrstripDot (pystrip "") = "" := rfl
    simp [pubmedItem, h, hz]

theorem pubmed_title_normalization_witness :
    (pubmedItem "999" ⟨"", "j", "d"⟩).title = "PubMed record 999" :=
  (pubmed_title_normalization "999" ⟨"", "j", "d"⟩).2 rfl

/-- C6 counterexample: with an empty environment the configuration step of
send_email fails with the generic KeyError naming SMTP_HOST, which is not
the descriptive missing-configuration error. -/
theorem send_email_config_keyerror_counterexample :
    send_email_config [] = Except.error (PyExc.keyError "SMTP_HOST") ∧
    (PyExc.keyError "SMTP_HOST").isMissingConfig = false :=
  ⟨rfl, rfl⟩

/-- C6 amended: if any of the six mail-sink keys is absent from the
environment, the send operation fails fast during configuration, but with
the language's generic error (a KeyError from environment subscripting, or
a ValueError from parsing the port), never with a descriptive
missing-configuration error. -/
theorem send_email_config_missing_key (env : EnvMap)
    (h : ∃ k ∈ smtpKeys, env.lookup k = none) :
    ∃ e, send_email_config env = Except.error e ∧
      e.isMissingConfig = false := by
  cases h1 : env.lookup "SMTP_HOST" with
  | none =>
    exact ⟨PyExc.keyError "SMTP_HOST",
      by simp [send_email_config, envIndex, h1, exceptBind_ok,
        exceptBind_error, exceptMap_ok, exceptMap_error], rfl⟩
  | some host =>
  cases h2 : env.lookup "SMTP_PORT" with
  | none =>
    exact ⟨PyExc.keyError "SMTP_PORT",
      by simp [send_email_config, envIndex, h1, h2, exceptBind_ok,
        exceptBind_error, exceptMap_ok, exceptMap_error], rfl⟩
  | some portStr =>
  cases hp : pyint portStr with
  | error e =>
    refine ⟨e, by simp [send_email_config, envIndex, h1, h2, hp,
      exceptBind_ok, exceptBind_error, exceptMap_ok, exceptMap_error], ?_⟩
    rw [pyint_error_shape portStr e hp]
    rfl
  | ok port =>
  cases h3 : env.lookup "SMTP_USER" with
  | none =>
    exact ⟨PyExc.keyError "SMTP_USER",
      by simp [send_email_config, envIndex, h1, h2, hp, h3, exceptBind_ok,
        exceptBind_error, exceptMap_ok, exceptMap_error], rfl⟩
  | some user =>
  cases h4 : env.lookup "SMTP_PASS" with
  | none =>
    exact ⟨PyExc.keyError "SMTP_PASS",
      by simp [send_email_config, envIndex, h1, h2, hp, h3, h4,
        exceptBind_ok, exceptBind_error, exceptMap_ok, exceptMap_error], rfl⟩
  | some password =>
  cases h5 : env.lookup "SMTP_FROM" with
  | none =>
    exact ⟨PyExc.keyError "SMTP_FROM",
      by simp [send_email_config, envIndex, h1, h2, hp, h3, h4, h5,
        exceptBind_ok, exceptBind_error, exceptMap_ok, exceptMap_error], rfl⟩
  | some sender =>
  cases h6 : env.lookup "REPORT_EMAIL_TO" with
  | none =>
    exact ⟨PyExc.keyError "REPORT_EMAIL_TO",
      by simp [send_email_config, envIndex, h1, h2, hp, h3, h4, h5, h6,
        exceptBind_ok, exceptBind_error, exceptMap_ok, exceptMap_error], rfl⟩
  | some toAddr =>
    exfalso
    rcases h with ⟨k, hk, hnone⟩
    simp only [smtpKeys, List.mem_cons, List.mem_singleton] at hk
    rcases hk with rfl | rfl | rfl | rfl | rfl | rfl | hk
    · rw [h1] at hnone; cases hnone
    · rw [h2] at hnone; cases hnone
    · rw [h3] at hnone; cases hnone
    · rw [h4] at hnone; cases hnone
    · rw [h5] at hnone; cases hnone
    · rw [h6] at hnone; cases hnone
    · simp at hk

theorem send_email_config_missing_key_witness :
    (∃ k ∈ smtpKeys, ([("SMTP_HOST", "h")] : EnvMap).lookup k = none) ∧
    ∃ e, send_email_config [("SMTP_HOST", "h")] = Except.error e ∧
      e.isMissingConfig = false :=
  ⟨⟨"SMTP_PORT", by decide, by decide⟩,
    send_email_config_missing_key [("SMTP_HOST", "h")]
      ⟨"SMTP_PORT", by decide, by decide⟩⟩

/-- C7: when the identifier search succeeds and returns an empty idlist,
the literature adapter returns the empty sequence and issues no ESummary
call — a normal non-error outcome. -/
theorem pubmed_search_empty_idlist (w : PubmedWorld)
    (hok : w.esearchStatus < 400) (hempty : w.idlist = []) :
    pubmed_search w = ([PubmedCall.esearch], Except.ok []) := by
  rw [pubmed_search, if_neg (by omega), if_pos hempty]

theorem pubmed_search_empty_idlist_witness :
    (200 : Nat) < 400 ∧
    pubmed_search ⟨200, [], 200, []⟩ = ([PubmedCall.esearch], Except.ok []) :=
  ⟨by decide, pubmed_search_empty_idlist ⟨200, [], 200, []⟩ (by decide) rfl⟩

/-- C8: every canonical record either adapter returns has a non-empty
title and a non-empty url. -/
theorem adapter_records_nonempty_title_url :
    (∀ (w : PubmedWorld) (items : List CanonicalRecord),
      (pubmed_search w).2 = Except.ok items →
      ∀ r ∈ items, r.title ≠ "" ∧ r.url ≠ "") ∧
    (∀ (oracle : CTParams → CTResponse) (pyhash : String → Int)
      (query : String) (db ps : Nat) (now : Int)
      (items : List CanonicalRecord),
      (clinicaltrials_search oracle pyhash query db ps now).2 =
        Except.ok items →
      ∀ r ∈ items, r.title ≠ "" ∧ r.url ≠ "") := by
  constructor
  · intro w items h r hr
    rcases pubmed_search_ok_shape w items h with rfl | rfl
    · simp at hr
    · obtain ⟨pid, _, hpid⟩ := List.mem_map.mp hr
      rw [← hpid]
      exact pubmedItem_nonempty pid _
  · intro oracle pyhash query db ps now items h r hr
    rcases clinicaltrials_search_ok_shape oracle pyhash query db ps now
      items h with rfl
    obtain ⟨st, _, hst⟩ := List.mem_filterMap.mp hr
    exact ctItem_nonempty pyhash _ st r hst

theorem adapter_records_nonempty_title_url_witness :
    ((pubmed_search ⟨200, ["111"], 200,
        [("111", ⟨"Title", "J", "2024"⟩)]⟩).2 =
      Except.ok [pubmedItem "111" ⟨"Title", "J", "2024"⟩]) ∧
    (pubmedItem "111" ⟨"Title", "J", "2024"⟩).title ≠ "" ∧
    (pubmedItem "111" ⟨"Title", "J", "2024"⟩).url ≠ "" :=
  ⟨rfl, adapter_records_nonempty_title_url.1
    ⟨200, ["111"], 200, [("111", ⟨"Title", "J", "2024"⟩)]⟩
    [pubmedItem "111" ⟨"Title", "J", "2024"⟩] rfl
    (pubmedItem "111" ⟨"Title", "J", "2024"⟩) (by simp)⟩

/-- C9: deduplication is idempotent: applying it to an already
deduplicated list is the identity. -/
theorem dedupe_idempotent (R : List CanonicalRecord) :
    dedupe (dedupe R) = dedupe R :=
  dedupe_of_nodup (dedupe R) (dedupe_nodup_id R)

/-- C10: the dict underlying dedupe preserves insertion order: the output
ids are the input ids in order of first occurrence; when all ids are
distinct the concatenation of the two adapters' outputs survives dedupe
unchanged (literature records before trial-registry records); and the
prompt builder emits one bullet per surviving record in that same order. -/
theorem dedupe_preserves_first_occurrence_order (R : List CanonicalRecord) :
    ((dedupe R).map CanonicalRecord.id = keepFirst (R.map CanonicalRecord.id)) ∧
    (∀ A B : List CanonicalRecord,
      ((A ++ B).map CanonicalRecord.id).Nodup → dedupe (A ++ B) = A ++ B) ∧
    buildPromptLines (dedupe R) = (dedupe R).map itemLine :=
  ⟨dedupe_map_id R, fun _ _ h => dedupe_of_nodup _ h,
    buildPromptLines_eq_map _⟩

theorem dedupe_preserves_first_occurrence_order_witness :
    ((([⟨"PubMed", "PMID:111", "t1", "", "u1", ""⟩] ++
        [⟨"ClinicalTrials.gov", "NCT:AAA", "t2", "", "u2", ""⟩]) :
        List CanonicalRecord).map CanonicalRecord.id).Nodup ∧
    dedupe ([⟨"PubMed", "PMID:111", "t1", "", "u1", ""⟩] ++
        [⟨"ClinicalTrials.gov", "NCT:AAA", "t2", "", "u2", ""⟩]) =
      [⟨"PubMed", "PMID:111", "t1", "", "u1", ""⟩] ++
        [⟨"ClinicalTrials.gov", "NCT:AAA", "t2", "", "u2", ""⟩] :=
  ⟨by decide,
    (dedupe_preserves_first_occurrence_order []).2.1
      [⟨"PubMed", "PMID:111", "t1", "", "u1", ""⟩]
      [⟨"ClinicalTrials.gov", "NCT:AAA", "t2", "", "u2", ""⟩] (by decide)⟩

end Digest
